import Mathlib

/-!
Verification of the vscode-lldb session-supervision core.

This file gives a shallow embedding of the TypeScript sources
(src/extension/util.ts, src/extension/install.ts, src/tests/adapter.test.ts)
and proves properties of the embedded definitions.

Conventions of the embedding:
* Node.js event-handler code is modelled as an explicit state machine: the
  mutable variables captured by the closures become fields of a state
  structure, and each event-handler body becomes one arm of a step function.
  A run of the system is a fold of the step function over an arbitrary list
  of incoming events (an interleaving).
* Calls to a Promise's resolve/reject functions are recorded in order in a
  `settlements` list; the value the caller's promise actually settles with
  is the first element (JavaScript promises ignore later settlement calls).
* JavaScript strings are Lean `String`s; a RegExp is modelled by its
  observable behaviour, a function `String → Option α` returning the data
  the program extracts from a successful `exec` (for the handshake pattern:
  the first captured group).
-/

namespace VscodeLldb

/-! ## ProcessSupervisor: waitForPattern (src/extension/util.ts, lines 167-217)

The executor of the promise returned by `waitForPattern` registers four
continuations: the channel `data` handler, the process `error` handler, the
`setTimeout` timer callback, and the process `exit` handler.  The captured
mutable state is `promisePending`, `processOutput` (set to `null` when the
match succeeds) and the timer handle (modelled by the flag `timerCleared`,
set by `clearTimeout`).  `process.kill()` in the timer callback is recorded
in the `killed` flag. -/

/-- An error value rejected by `waitForPattern`.  `timeout` carries the
`err.code = 'Timeout'` / `err.stdout = processOutput` fields, `handshake`
the `err.code = 'Handshake'` / `err.stdout = processOutput` fields, and
`spawn` is the error object delivered by the process `error` event. -/
inductive JsError where
  | spawn (msg : String)
  | timeout (stdout : Option String)
  | handshake (stdout : Option String)
  deriving DecidableEq, Repr

/-- One recorded call to the executor's `resolve` or `reject`. -/
inductive Settlement (α : Type) where
  | resolve (m : α)
  | reject (e : JsError)
  deriving DecidableEq, Repr

/-- The state captured by the `waitForPattern` executor closures. -/
structure WfpState (α : Type) where
  promisePending : Bool
  processOutput : Option String
  settlements : List (Settlement α)
  killed : Bool
  timerCleared : Bool
  deriving DecidableEq, Repr

/-- Initial state: `promisePending = true`, `processOutput = ''`. -/
def wfpInit (α : Type) : WfpState α :=
  { promisePending := true, processOutput := some "", settlements := [],
    killed := false, timerCleared := false }

/-- The events that can reach the four continuations: a `data` chunk on the
channel, a process `error` event, the timer firing, and process `exit`. -/
inductive WfpEvent where
  | data (chunk : String)
  | errorEvt (msg : String)
  | timerFire
  | exitEvt
  deriving DecidableEq, Repr

/-- One event-handler execution of `waitForPattern`, transcribed from
`src/extension/util.ts` lines 177-215:
* `data`: guarded by `promisePending`; appends the chunk to `processOutput`,
  re-runs the pattern on the full accumulated text; on a match clears the
  timer, discards the buffer (`processOutput = null`), clears the flag and
  resolves with the match.
* `errorEvt`: the source has no `promisePending` guard here; it
  unconditionally clears the flag and rejects with the error.
* `timerFire`: the callback runs only if `clearTimeout` has not been called;
  guarded by `promisePending`; kills the process and rejects with the
  Timeout error carrying `processOutput`.
* `exitEvt`: guarded by `promisePending`; rejects with the Handshake error
  carrying `processOutput`. -/
def wfpStep (pattern : String → Option α) (s : WfpState α) : WfpEvent → WfpState α
  | .data chunk =>
    if s.promisePending then
      let po := s.processOutput.getD "" ++ chunk
      match pattern po with
      | some m =>
        { s with timerCleared := true, processOutput := none,
                 promisePending := false,
                 settlements := s.settlements ++ [.resolve m] }
      | none => { s with processOutput := some po }
    else s
  | .errorEvt msg =>
    { s with promisePending := false,
             settlements := s.settlements ++ [.reject (.spawn msg)] }
  | .timerFire =>
    if s.timerCleared then s
    else if s.promisePending then
      { s with killed := true, promisePending := false,
               settlements := s.settlements ++ [.reject (.timeout s.processOutput)] }
    else s
  | .exitEvt =>
    if s.promisePending then
      { s with promisePending := false,
               settlements := s.settlements ++ [.reject (.handshake s.processOutput)] }
    else s

/-- A full run of `waitForPattern` over an interleaving of events. -/
def wfpRun (pattern : String → Option α) (evs : List WfpEvent) : WfpState α :=
  evs.foldl (wfpStep pattern) (wfpInit α)

/-! ### The concrete handshake pattern

`startDebugAdapter` (src/extension/install.ts) and `DebugTestSession.start`
(src/tests/adapter.test.ts) both use
`new RegExp('^Listening on port (\\d+)\\s', 'm')` and read `match[1]`.
`listeningPattern` is that regex's observable behaviour: scan the text for a
position at the start of a line (start of string, or right after a newline)
where the literal `Listening on port ` is followed by one or more digits and
then a whitespace character; return the digit run (captured group 1) of the
first such match. -/

/-- JavaScript regex `\s` on the characters occurring in this code base. -/
def isJsSpace (c : Char) : Bool :=
  c = ' ' || c = '\t' || c = '\n' || c = '\r' || c = '\x0b' || c = '\x0c'

def isDigitChar (c : Char) : Bool :=
  '0' ≤ c && c ≤ '9'

/-- Drop `pre` from the front of `cs` if `cs` starts with it. -/
def dropLit : List Char → List Char → Option (List Char)
  | [], cs => some cs
  | _ :: _, [] => none
  | p :: ps, c :: cs => if c = p then dropLit ps cs else none

/-- Try the pattern body `Listening on port (\d+)\s` at this position. -/
def matchPortAt (cs : List Char) : Option String :=
  match dropLit "Listening on port ".data cs with
  | none => none
  | some rest =>
    let ds := rest.takeWhile isDigitChar
    match rest.drop ds.length with
    | [] => none
    | c :: _ => if ds.length > 0 && isJsSpace c then some (String.mk ds) else none

/-- Scan for the first multiline-anchored match; `atStart` records whether
the current position is a line start. -/
def scanPort (atStart : Bool) : List Char → Option String
  | [] => none
  | c :: rest =>
    match (if atStart then matchPortAt (c :: rest) else none) with
    | some r => some r
    | none => scanPort (c = '\n') rest

/-- The handshake regex of `startDebugAdapter` / `DebugTestSession.start`,
reduced to the projection the program uses (captured group 1). -/
def listeningPattern (s : String) : Option String :=
  scanPort true s.data

/-- Concatenation of a list of chunks, as the `data` handler accumulates it. -/
def chunksConcat : List String → String
  | [] => ""
  | c :: cs => c ++ chunksConcat cs

/-! ## ConfigExpander (src/extension/util.ts, lines 13-76)

`expandVariables` rewrites a string with the global regex
`/\$\x7b(?:([^:\x7d]+):)?([^\x7d]+)\x7d/g`: each non-overlapping token
`$\x7btype:key\x7d` (the `type:` part optional) is passed to the expander
callback; a non-null return value replaces the token, a null return keeps
it.  `String.prototype.replace` does not re-scan replacement text within
the same call.

The embedding represents a JavaScript string pre-tokenized by that regex:
a list of segments, each either literal token-free text or one reference
token with its optional type and its key.  Splicing a replacement in as
segments preserves the source behaviour that replacement text is only
re-examined by the next fixed-point pass. -/

/-- One segment of a tokenized string: literal text, or a `$\x7b...\x7d`
reference token. -/
inductive Seg where
  | text (s : String)
  | ref (type : Option String) (key : String)
  deriving DecidableEq, Repr

/- A JavaScript value as handled by `expandVariablesInObject` and
`expandDbgConfig`: strings (tokenized), the scalars accepted by
`isScalarValue` (null, booleans, numbers), arrays and objects.  The three
types are mutual so that structural recursion and induction stay simple. -/
mutual
inductive JVal where
  | str (s : List Seg)
  | null
  | bool (b : Bool)
  | num (n : Int)
  | arr (xs : JValList)
  | obj (fs : JFields)
  deriving DecidableEq, Repr

inductive JValList where
  | nil
  | cons (v : JVal) (t : JValList)
  deriving DecidableEq, Repr

inductive JFields where
  | nil
  | cons (k : String) (v : JVal) (t : JFields)
  deriving DecidableEq, Repr
end

/-- Errors thrown during expansion: the two `throw new Error(...)` sites of
`expandDbgConfig`, plus exhaustion of the fuel that bounds the source's
unbounded `do/while` loop in this embedding. -/
inductive ExpErr where
  | circular (key : String)
  | undef (key : String)
  | outOfFuel
  deriving DecidableEq, Repr

/-- An expander callback: given the token's optional type and its key it
either throws, keeps the token (`none`), or produces replacement text
(`some segs`, the tokenization of the returned string). -/
def Expander := Option String → String → Except ExpErr (Option (List Seg))

/-- Embedding of `expandVariables` (util.ts lines 15-21) over a tokenized string: the
callback is invoked on each token left to right; the Bool records whether
any replacement happened (the source tracks this through the `converged`
flag the callback mutates). -/
def expandVariables (exp : Expander) : List Seg → Except ExpErr (List Seg × Bool)
  | [] => .ok ([], false)
  | .text t :: rest => do
    let (rest', b) ← expandVariables exp rest
    .ok (.text t :: rest', b)
  | .ref ty key :: rest => do
    let r ← exp ty key
    let (rest', b) ← expandVariables exp rest
    match r with
    | some repl => .ok (repl ++ rest', true)
    | none => .ok (.ref ty key :: rest', b)

/- `expandVariablesInObject` (util.ts lines 23-36): strings are expanded,
scalars pass through, arrays are mapped, objects have every property
expanded in place. -/
mutual
def expandVal (exp : Expander) : JVal → Except ExpErr (JVal × Bool)
  | .str s => do
    let (s', b) ← expandVariables exp s
    .ok (.str s', b)
  | .null => .ok (.null, false)
  | .bool b => .ok (.bool b, false)
  | .num q => .ok (.num q, false)
  | .arr xs => do
    let (xs', b) ← expandValList exp xs
    .ok (.arr xs', b)
  | .obj fs => do
    let (fs', b) ← expandValFields exp fs
    .ok (.obj fs', b)

def expandValList (exp : Expander) : JValList → Except ExpErr (JValList × Bool)
  | .nil => .ok (.nil, false)
  | .cons v t => do
    let (v', b1) ← expandVal exp v
    let (t', b2) ← expandValList exp t
    .ok (.cons v' t', b1 || b2)

def expandValFields (exp : Expander) : JFields → Except ExpErr (JFields × Bool)
  | .nil => .ok (.nil, false)
  | .cons k v t => do
    let (v', b1) ← expandVal exp v
    let (t', b2) ← expandValFields exp t
    .ok (.cons k v' t', b1 || b2)
end

/- JavaScript `toString` of a value, tokenized.  Strings are themselves;
numbers and booleans render as text; arrays join their elements with `,`
(null elements render empty, as in `Array.prototype.join`); plain objects
render as the literal text `[object Object]`.  (`ℚ` rendering uses `Rat`'s
own textual form, which agrees with JavaScript on the integers appearing
in this code base.) -/
mutual
def toSegs : JVal → List Seg
  | .str s => s
  | .null => [.text "null"]
  | .bool b => [.text (cond b "true" "false")]
  | .num n => [.text (toString n)]
  | .arr xs => toSegsList xs
  | .obj _ => [.text "[object Object]"]

def toSegsList : JValList → List Seg
  | .nil => []
  | .cons .null .nil => []
  | .cons v .nil => toSegs v
  | .cons .null t => .text "," :: toSegsList t
  | .cons v t => toSegs v ++ [.text ","] ++ toSegsList t
end

def dictLookup : List (String × JVal) → String → Option JVal
  | [], _ => none
  | p :: t, k => if p.1 = k then some p.2 else dictLookup t k

/-- Replace the value of the first binding of `k`. -/
def dictUpdate : List (String × JVal) → String → JVal → List (String × JVal)
  | [], _, _ => []
  | (k', v') :: t, k, v =>
    if k' = k then (k', v) :: t else (k', v') :: dictUpdate t k v

/-- The expander closure of the fixed-point loop (util.ts lines 45-56):
for a `dbgconfig` token it throws the circular-dependency error when the
key equals the property currently being expanded, throws the not-defined
error when the dictionary value is missing (`== undefined` also catches
null), and otherwise replaces the token with the value's string form,
marking the pass as not converged. -/
def dbgExpander (dbgconfig : List (String × JVal)) (expanding : String) : Expander :=
  fun ty key =>
    if ty = some "dbgconfig" then
      if key = expanding then .error (.circular key)
      else
        match dictLookup dbgconfig key with
        | none => .error (.undef key)
        | some .null => .error (.undef key)
        | some v => .ok (some (toSegs v))
    else .ok none

/-- One pass of the fixed-point loop body (util.ts lines 58-62): walk the
keys in order, expanding each property against the current dictionary
(properties updated earlier in the same pass are already visible).  The
Bool result is the pass's `converged` flag. -/
def expandPass (m : List (String × JVal)) :
    List String → Except ExpErr (List (String × JVal) × Bool)
  | [] => .ok (m, true)
  | k :: ks =>
    match dictLookup m k with
    | none => expandPass m ks
    | some v => do
      let (v', b) ← expandVal (dbgExpander m k) v
      let (m', conv) ← expandPass (dictUpdate m k v') ks
      .ok (m', conv && !b)

/-- The `do/while (!converged)` loop (util.ts lines 57-63), bounded by
fuel; the result carries the number of passes executed.  The source loop
has no fuel: a `.ok` or a `.circular`/`.undef` result at any fuel is
therefore exactly what the source computes, while `.outOfFuel` asserts
nothing about the source. -/
def expandLoop : Nat → List (String × JVal) → Except ExpErr (List (String × JVal) × Nat)
  | 0, _ => .error .outOfFuel
  | fuel + 1, m => do
    let (m', conv) ← expandPass m (m.map (fun p => p.1))
    if conv then .ok (m', 1)
    else do
      let (r, n) ← expandLoop fuel m'
      .ok (r, n + 1)

/-- The expander used on the launch configuration after the fixed point is
reached (util.ts lines 66-74): like `dbgExpander` but with no cycle check. -/
def finalExpander (dbgconfig : List (String × JVal)) : Expander :=
  fun ty key =>
    if ty = some "dbgconfig" then
      match dictLookup dbgconfig key with
      | none => .error (.undef key)
      | some .null => .error (.undef key)
      | some v => .ok (some (toSegs v))
    else .ok none

/-- Embedding of `expandDbgConfig` (util.ts lines 39-76): compute the fixed point of the
dbgconfig dictionary, then expand the launch configuration against it.
Returns the expanded launch configuration and the number of fixed-point
passes. -/
def expandDbgConfig (fuel : Nat) (debugConfig : JVal)
    (dbgconfigConfig : List (String × JVal)) : Except ExpErr (JVal × Nat) := do
  let (dbgconfig, passes) ← expandLoop fuel dbgconfigConfig
  let (dc, _) ← expandVal (finalExpander dbgconfig) debugConfig
  .ok (dc, passes)

def noRefsSegs : List Seg → Bool
  | [] => true
  | .text _ :: rest => noRefsSegs rest
  | .ref _ _ :: _ => false

/- `noRefs`: no value of the document contains a reference token.  This is
the "already fully resolved" condition of the spec. -/
mutual
def noRefsVal : JVal → Bool
  | .str s => noRefsSegs s
  | .null => true
  | .bool _ => true
  | .num _ => true
  | .arr xs => noRefsList xs
  | .obj fs => noRefsFields fs

def noRefsList : JValList → Bool
  | .nil => true
  | .cons v t => noRefsVal v && noRefsList t

def noRefsFields : JFields → Bool
  | .nil => true
  | .cons _ v t => noRefsVal v && noRefsFields t
end

def noRefsDict (m : List (String × JVal)) : Bool :=
  m.all (fun p => noRefsVal p.2)

/-! ## AdapterProcess (src/extension/install.ts, class AdapterProcess)

The constructor sets `isAlive = true` and installs a process `exit`
listener that flips it to `false` (and logs); `terminate()` calls
`this.process.kill()` only when `isAlive` still holds.  Kill signals sent
are counted in `kills`. -/

structure ApState where
  isAlive : Bool
  kills : Nat
  deriving DecidableEq, Repr

/-- The constructor's initial state. -/
def apInit : ApState := { isAlive := true, kills := 0 }

/-- The things that can happen to an `AdapterProcess` after construction:
the underlying process's `exit` event fires, or a client calls
`terminate()`. -/
inductive ApEvent where
  | exitEvt
  | terminateCall
  deriving DecidableEq, Repr

/-- One event: the `exit` listener body, or one `terminate()` call. -/
def apStep (s : ApState) : ApEvent → ApState
  | .exitEvt => { s with isAlive := false }
  | .terminateCall => if s.isAlive then { s with kills := s.kills + 1 } else s

def apRun (evs : List ApEvent) : ApState :=
  evs.foldl apStep apInit

/-! ## DebugTestSession.launch / .attach (src/tests/adapter.test.ts, lines 539-555)

```
let waitForInit = this.waitForEvent('initialized');
await this.initializeRequest()
let launchResp = this.launchRequest(launchArgs);
await waitForInit;
this.configurationDoneRequest();
return launchResp;
```
(`attach` is identical with `attachRequest` in place of `launchRequest`.)

The composite operation is modelled as a coroutine advanced by inbound
protocol messages.  Each action (a request sent, a message received) is
stamped with a monotonically increasing clock, so "x happened before y"
is comparison of the recorded stamps.  The `initialized`-event waiter is
registered before `initialize` is sent, so the event is captured whenever
it arrives; the coroutine's two await points are the `initialize`
response and the waiter. -/

inductive LaunchPhase where
  | awaitInitResp
  | awaitInitEvent
  | bodyDone
  deriving DecidableEq, Repr

/-- Inbound messages relevant to `launch`: the `initialize` response, the
`initialized` event, the `launch` (or `attach`) response. -/
inductive LaunchIn where
  | initResp
  | initEvent
  | launchResp
  deriving DecidableEq, Repr

structure LaunchState where
  clock : Nat
  phase : LaunchPhase
  recvInitRespAt : Option Nat
  recvInitEventAt : Option Nat
  recvLaunchRespAt : Option Nat
  sentInitializeAt : Option Nat
  sentLaunchAt : Option Nat
  sentConfigDoneAt : Option Nat
  deriving DecidableEq, Repr

/-- Keep the first recorded stamp (each message arrives at most once; a
duplicate in the interleaving is ignored rather than re-stamped). -/
def stamp (old : Option Nat) (t : Nat) : Option Nat :=
  match old with
  | some u => some u
  | none => some t

/-- Resume the coroutine past the `await this.initializeRequest()` point:
if it is waiting there and the response has arrived, send the
`launch`/`attach` request and move to the second await. -/
def launchAdvance1 (s : LaunchState) : LaunchState :=
  if s.phase = .awaitInitResp ∧ s.recvInitRespAt.isSome then
    { s with sentLaunchAt := some s.clock, clock := s.clock + 1,
             phase := .awaitInitEvent }
  else s

/-- Resume the coroutine past the `await waitForInit` point: if it is
waiting there and the `initialized` event has arrived, send
`configurationDone` and finish the body. -/
def launchAdvance2 (s : LaunchState) : LaunchState :=
  if s.phase = .awaitInitEvent ∧ s.recvInitEventAt.isSome then
    { s with sentConfigDoneAt := some s.clock, clock := s.clock + 1,
             phase := .bodyDone }
  else s

def launchAdvance (s : LaunchState) : LaunchState :=
  launchAdvance2 (launchAdvance1 s)

/-- Record one inbound message, then let the coroutine run as far as it
can. -/
def launchStep (s : LaunchState) (m : LaunchIn) : LaunchState :=
  launchAdvance <|
    match m with
    | .initResp => { s with recvInitRespAt := stamp s.recvInitRespAt s.clock,
                            clock := s.clock + 1 }
    | .initEvent => { s with recvInitEventAt := stamp s.recvInitEventAt s.clock,
                             clock := s.clock + 1 }
    | .launchResp => { s with recvLaunchRespAt := stamp s.recvLaunchRespAt s.clock,
                              clock := s.clock + 1 }

/-- The state after the synchronous start of `launch`: waiter registered,
`initialize` sent, suspended at `await this.initializeRequest()`. -/
def launchInit : LaunchState :=
  { clock := 1, phase := .awaitInitResp,
    recvInitRespAt := none, recvInitEventAt := none, recvLaunchRespAt := none,
    sentInitializeAt := some 0, sentLaunchAt := none, sentConfigDoneAt := none }

/-- Run `launch` against an interleaving of inbound messages. -/
def launchRun (ins : List LaunchIn) : LaunchState :=
  ins.foldl launchStep launchInit

/-! ## DebugTestSession.waitForStopEvent (src/tests/adapter.test.ts, lines 637-649)

A listener on the `stopped` event that ignores events whose body `reason`
is `'initial'`; on the first other event it removes itself and resolves. -/

structure StoppedEvent where
  reason : String
  threadId : Option Nat
  deriving DecidableEq, Repr

structure WfsState where
  listenerActive : Bool
  resolved : Option StoppedEvent
  deriving DecidableEq, Repr

def wfsInit : WfsState := { listenerActive := true, resolved := none }

/-- The handler body, run on each `stopped` event while registered. -/
def wfsStep (s : WfsState) (ev : StoppedEvent) : WfsState :=
  if s.listenerActive then
    if ev.reason ≠ "initial" then { listenerActive := false, resolved := some ev }
    else s
  else s

def wfsRun (evs : List StoppedEvent) : WfsState :=
  evs.foldl wfsStep wfsInit

/-! ## VariableTreeInspector: DebugTestSession.compareVariables
(src/tests/adapter.test.ts, lines 599-635)

`compareVariables(varRef, expected, prefix)` asserts `varRef != 0`, issues
one `variables` request for `varRef`, indexes the returned variables by
name (later duplicates overwrite), and then walks `Object.keys(expected)`
in order.  Each `assert` throws on its first failure, so the walk is
fail-fast.  The embedding returns the list of container references for
which a `variables` request was issued (in order) together with either
`()` or the first assertion failure. -/

def natOfDigits (ds : List Char) : ℕ :=
  ds.foldl (fun a c => a * 10 + (c.toNat - '0'.toNat)) 0

/-- An exact numeric value `mant · 10 ^ exp10`.  This represents without
loss every finite decimal literal occurring in the sources (the test
expectations and the debugger's rendered values). -/
structure JsNum where
  mant : Int
  exp10 : Int
  deriving DecidableEq, Repr

/-- Numeric equality of two exact decimals (the `==` of
`assert.equal(numValue, expectedValue)` on finite numbers). -/
def jsNumEq (x y : JsNum) : Bool :=
  let d := x.exp10 - y.exp10
  if 0 ≤ d then x.mant * (10 : Int) ^ d.toNat = y.mant
  else x.mant = y.mant * (10 : Int) ^ (-d).toNat

/-- JavaScript `parseFloat` on exact decimals: skip leading whitespace,
then parse the longest prefix of the form
sign? digits? (. digits)? (e sign? digits)?; at least one digit must occur
before the exponent, else the result is NaN.  `none` stands for a
non-finite result (NaN; the `Infinity` spelling, never produced by the
debugger values compared here, is also mapped to `none`, which compares
unequal to every finite expected number just as in JavaScript). -/
def parseFloat (s : String) : Option JsNum :=
  let cs := s.data.dropWhile isJsSpace
  let signAndRest : Int × List Char :=
    match cs with
    | '-' :: t => (-1, t)
    | '+' :: t => (1, t)
    | _ => (1, cs)
  let cs1 := signAndRest.2
  let ip := cs1.takeWhile isDigitChar
  let cs2 := cs1.drop ip.length
  let fracAndRest : List Char × List Char :=
    match cs2 with
    | '.' :: t => (t.takeWhile isDigitChar, t.drop (t.takeWhile isDigitChar).length)
    | _ => ([], cs2)
  let fp := fracAndRest.1
  let cs3 := fracAndRest.2
  if ip.length = 0 ∧ fp.length = 0 then none
  else
    let expo : Int :=
      match cs3 with
      | e :: t =>
        if e = 'e' ∨ e = 'E' then
          let esignAndRest : Int × List Char :=
            match t with
            | '-' :: u => (-1, u)
            | '+' :: u => (1, u)
            | _ => (1, t)
          let ed := esignAndRest.2.takeWhile isDigitChar
          if ed.length = 0 then 0 else esignAndRest.1 * (natOfDigits ed : Int)
        else 0
      | [] => 0
    some ⟨signAndRest.1 * (natOfDigits (ip ++ fp) : Int), expo - fp.length⟩

/-- A variable as returned by a `variables` request (the fields the
comparison reads). -/
structure VarNode where
  name : String
  value : String
  variablesReference : Nat
  deriving DecidableEq, Repr

/- An expected tree shape, the `expected` argument of `compareVariables`:
`null` asserts presence only, a string asserts exact rendered value, a
number asserts numeric equality after `parseFloat`, an object recurses
(with the optional `$` key holding an expected summary string). -/
mutual
inductive Expected where
  | null
  | str (s : String)
  | num (n : JsNum)
  | obj (fs : EFields)
  deriving DecidableEq, Repr

inductive EFields where
  | nil
  | cons (k : String) (v : Expected) (t : EFields)
  deriving DecidableEq, Repr
end

/-- The first assertion failure thrown by `compareVariables`, with the
data interpolated into the assertion message. -/
inductive CmpErr where
  | assertNonZero
  | notFound (keyPath : String)
  | strMismatch (keyPath expected actual : String)
  | numMismatch (keyPath : String) (expected : JsNum) (actual : Option JsNum)
  | summaryMismatch (keyPath expected actual : String)
  deriving DecidableEq, Repr

/-- Lookup modelling `vars[v.name] = v` over the response list followed by `vars[key]`:
the last variable with the given name. -/
def varsGet : List VarNode → String → Option VarNode
  | [], _ => none
  | v :: t, key =>
    match varsGet t key with
    | some r => some r
    | none => if v.name = key then some v else none

/-- Lookup `expected[key]` on the model of an object literal (last binding wins). -/
def eFieldsGet : EFields → String → Option Expected
  | .nil, _ => none
  | .cons k v t, key =>
    match eFieldsGet t key with
    | some r => some r
    | none => if k = key then some v else none

/-- The `summary = expectedValue['$']` check run before descending into an
object-valued expectation.  All call sites use string summaries; a `null`
binding is `== undefined` and skipped, like an absent one. -/
def checkSummary (sub : EFields) (keyPath : String) (v : VarNode) : Except CmpErr Unit :=
  match eFieldsGet sub "$" with
  | some (.str s) => if v.value = s then .ok () else .error (.summaryMismatch keyPath s v.value)
  | _ => .ok ()

/- `compareOne` is the body of one iteration of the `for` loop (the checks
against a single expected value), `compareLoop` the loop over
`Object.keys(expected)`.  The recursive `await this.compareVariables(...)`
call of the source appears in `compareOne`'s `.obj` arm with its entry
code (the non-zero assertion and the `variables` request) inlined;
`compareVariables` below is that same entry code at top level. -/
mutual
def compareOne (backend : Nat → List VarNode) (v : VarNode) (keyPath : String) :
    Expected → List Nat × Except CmpErr Unit
  | .null => ([], .ok ())
  | .str s =>
    if v.value = s then ([], .ok ())
    else ([], .error (.strMismatch keyPath s v.value))
  | .num q =>
    match parseFloat v.value with
    | some n =>
      if jsNumEq n q then ([], .ok ())
      else ([], .error (.numMismatch keyPath q (some n)))
    | none => ([], .error (.numMismatch keyPath q none))
  | .obj sub =>
    match checkSummary sub keyPath v with
    | .error e => ([], .error e)
    | .ok () =>
      if v.variablesReference = 0 then ([], .error .assertNonZero)
      else
        match compareLoop backend (backend v.variablesReference) keyPath sub with
        | (reqs, r) => (v.variablesReference :: reqs, r)

def compareLoop (backend : Nat → List VarNode) (vars : List VarNode) (pre : String) :
    EFields → List Nat × Except CmpErr Unit
  | .nil => ([], .ok ())
  | .cons key ev t =>
    if key = "$" then compareLoop backend vars pre t
    else
      let keyPath := if pre.length > 0 then pre ++ "." ++ key else key
      match varsGet vars key with
      | none => ([], .error (.notFound keyPath))
      | some v =>
        match compareOne backend v keyPath ev with
        | (reqs, .error e) => (reqs, .error e)
        | (reqs, .ok ()) =>
          match compareLoop backend vars pre t with
          | (reqs', r) => (reqs ++ reqs', r)
end

/-- Embedding of `DebugTestSession.compareVariables(varRef, expected, prefix)`:
`assert.notEqual(varRef, 0, 'Expected non-zero.')`, one `variables`
request, then the key walk.  The first component lists the container
references requested, in order. -/
def compareVariables (backend : Nat → List VarNode) (varRef : Nat)
    (expected : EFields) (pre : String) : List Nat × Except CmpErr Unit :=
  if varRef = 0 then ([], .error .assertNonZero)
  else
    match compareLoop backend (backend varRef) pre expected with
    | (reqs, r) => (varRef :: reqs, r)

/-! # Theorems -/

/-- Reduction of the `Except` monad's bind on a success value. -/
@[simp] lemma except_bind_ok {ε : Type u} {α β : Type v} (a : α)
    (f : α → Except ε β) : (Except.ok a : Except ε α) >>= f = f a := rfl

/-- Reduction of the `Except` monad's bind on an error value. -/
@[simp] lemma except_bind_error {ε : Type u} {α β : Type v} (e : ε)
    (f : α → Except ε β) : (Except.error e : Except ε α) >>= f = .error e := rfl

/-! ## Claims C5 and C6: waitForPattern -/

lemma chunksConcat_append (xs ys : List String) :
    chunksConcat (xs ++ ys) = chunksConcat xs ++ chunksConcat ys := by
  induction xs with
  | nil => simp [chunksConcat, String.empty_append]
  | cons c t ih => simp [chunksConcat, ih, String.append_assoc]

/-- While no prefix of the accumulated output matches, the `data` handler
only grows the buffer: the promise stays pending, nothing settles, the
timer stays armed and the process is not killed. -/
lemma wfpRun_data_noMatch (pattern : String → Option α) (chunks : List String) :
    ∀ acc : String,
      (∀ j < chunks.length, pattern (acc ++ chunksConcat (chunks.take (j + 1))) = none) →
      (chunks.map WfpEvent.data).foldl (wfpStep pattern)
          ⟨true, some acc, [], false, false⟩
        = ⟨true, some (acc ++ chunksConcat chunks), [], false, false⟩ := by
  induction chunks with
  | nil => intro acc _; simp [chunksConcat, String.append_empty]
  | cons c t ih =>
    intro acc h
    have h0 : pattern (acc ++ c) = none := by
      have := h 0 (by simp)
      simpa [chunksConcat, String.append_empty] using this
    have hstep : wfpStep pattern ⟨true, some acc, [], false, false⟩ (.data c)
        = ⟨true, some (acc ++ c), [], false, false⟩ := by
      simp [wfpStep, h0]
    have ht : ∀ j < t.length, pattern ((acc ++ c) ++ chunksConcat (t.take (j + 1))) = none := by
      intro j hj
      have := h (j + 1) (by simpa using hj)
      simpa [chunksConcat, String.append_assoc] using this
    calc ((c :: t).map WfpEvent.data).foldl (wfpStep pattern) ⟨true, some acc, [], false, false⟩
        = (t.map WfpEvent.data).foldl (wfpStep pattern) ⟨true, some (acc ++ c), [], false, false⟩ := by
          simp [List.foldl, hstep]
      _ = ⟨true, some ((acc ++ c) ++ chunksConcat t), [], false, false⟩ := ih (acc ++ c) ht
      _ = ⟨true, some (acc ++ chunksConcat (c :: t)), [], false, false⟩ := by
          simp [chunksConcat, String.append_assoc]

/-- After the promise has settled (`promisePending = false`), further
`data` chunks change nothing: the pattern is not re-run and the buffer is
not touched. -/
lemma wfpRun_data_settled (pattern : String → Option α) (chunks : List String) :
    ∀ s : WfpState α, s.promisePending = false →
      (chunks.map WfpEvent.data).foldl (wfpStep pattern) s = s := by
  induction chunks with
  | nil => intro s _; rfl
  | cons c t ih =>
    intro s hs
    have hstep : wfpStep pattern s (.data c) = s := by simp [wfpStep, hs]
    simp [List.foldl, hstep, ih s hs]

/-- Claim C5. For every decomposition of the chunk stream into
`pre ++ [c] ++ post` such that no prefix of `pre` matches but the full
text accumulated through `c` does, `waitForPattern` resolves exactly once,
with the match of the pattern against the whole accumulated text (even
though the matching line is split across chunk boundaries), clears the
timer, discards the accumulation buffer (`processOutput = null`), and
ignores every later chunk (`post` leaves the state unchanged: no further
match is attempted and nothing settles again). -/
theorem waitForPattern_resolves_first_match (pattern : String → Option α)
    (pre : List String) (c : String) (post : List String) (m : α)
    (hnm : ∀ j < pre.length, pattern (chunksConcat (pre.take (j + 1))) = none)
    (hm : pattern (chunksConcat (pre ++ [c])) = some m) :
    wfpRun pattern ((pre ++ c :: post).map WfpEvent.data)
      = ⟨false, none, [.resolve m], false, true⟩ := by
  have hnm' : ∀ j < pre.length, pattern ("" ++ chunksConcat (pre.take (j + 1))) = none := by
    intro j hj; simpa [String.empty_append] using hnm j hj
  have hpre := wfpRun_data_noMatch pattern pre "" hnm'
  have hm' : pattern (chunksConcat pre ++ c) = some m := by
    have : chunksConcat (pre ++ [c]) = chunksConcat pre ++ c := by
      simp [chunksConcat_append, chunksConcat, String.append_empty]
    rw [this] at hm
    exact hm
  have hstep : wfpStep pattern ⟨true, some (chunksConcat pre), [], false, false⟩ (.data c)
      = ⟨false, none, [.resolve m], false, true⟩ := by
    simp [wfpStep, hm']
  calc wfpRun pattern ((pre ++ c :: post).map WfpEvent.data)
      = (post.map WfpEvent.data).foldl (wfpStep pattern)
          (wfpStep pattern
            ((pre.map WfpEvent.data).foldl (wfpStep pattern) (wfpInit α)) (.data c)) := by
        simp [wfpRun, List.foldl_append, List.foldl]
    _ = (post.map WfpEvent.data).foldl (wfpStep pattern) ⟨false, none, [.resolve m], false, true⟩ := by
        rw [show (wfpInit α) = (⟨true, some "", [], false, false⟩ : WfpState α) from rfl,
          hpre, String.empty_append, hstep]
    _ = ⟨false, none, [.resolve m], false, true⟩ :=
        wfpRun_data_settled pattern post _ rfl

/-- Claim C5, witness.  The handshake line arrives split across two chunks
(`"Listening on po"` then `"rt 4711\n"`); the waiter resolves with
captured group `"4711"`, and a later chunk that would match again is
ignored and the buffer stays discarded. -/
theorem waitForPattern_resolves_first_match_witness :
    wfpRun listeningPattern
        ((["Listening on po"] ++ "rt 4711\n" :: ["Listening on port 9999\n"]).map WfpEvent.data)
      = ⟨false, none, [.resolve "4711"], false, true⟩ :=
  waitForPattern_resolves_first_match listeningPattern
    ["Listening on po"] "rt 4711\n" ["Listening on port 9999\n"] "4711"
    (by decide) (by decide)

/-- Claim C6. If no prefix of the output matches the pattern, then (a) the
timer firing rejects the promise with the Timeout error (`code =
'Timeout'`) carrying the output captured so far, and kills the supervised
process; and (b) the process exiting first instead rejects with the
premature-exit Handshake error carrying the output captured so far for
diagnostics (and does not kill). -/
theorem waitForPattern_timeout_and_prematureExit (pattern : String → Option α)
    (chunks : List String)
    (h : ∀ j < chunks.length, pattern (chunksConcat (chunks.take (j + 1))) = none) :
    wfpRun pattern (chunks.map WfpEvent.data ++ [WfpEvent.timerFire])
      = ⟨false, some (chunksConcat chunks),
          [.reject (.timeout (some (chunksConcat chunks)))], true, false⟩
    ∧ wfpRun pattern (chunks.map WfpEvent.data ++ [WfpEvent.exitEvt])
      = ⟨false, some (chunksConcat chunks),
          [.reject (.handshake (some (chunksConcat chunks)))], false, false⟩ := by
  have h' : ∀ j < chunks.length, pattern ("" ++ chunksConcat (chunks.take (j + 1))) = none := by
    intro j hj; simpa [String.empty_append] using h j hj
  have hrun := wfpRun_data_noMatch pattern chunks "" h'
  constructor
  · calc wfpRun pattern (chunks.map WfpEvent.data ++ [WfpEvent.timerFire])
        = wfpStep pattern
            ((chunks.map WfpEvent.data).foldl (wfpStep pattern) (wfpInit α)) .timerFire := by
          simp [wfpRun, List.foldl_append, List.foldl]
      _ = _ := by
          rw [show (wfpInit α) = (⟨true, some "", [], false, false⟩ : WfpState α) from rfl,
            hrun, String.empty_append]
          simp [wfpStep]
  · calc wfpRun pattern (chunks.map WfpEvent.data ++ [WfpEvent.exitEvt])
        = wfpStep pattern
            ((chunks.map WfpEvent.data).foldl (wfpStep pattern) (wfpInit α)) .exitEvt := by
          simp [wfpRun, List.foldl_append, List.foldl]
      _ = _ := by
          rw [show (wfpInit α) = (⟨true, some "", [], false, false⟩ : WfpState α) from rfl,
            hrun, String.empty_append]
          simp [wfpStep]

/-- Claim C6, witness.  Output `"hi"` never matches the handshake pattern:
the timer rejects with the Timeout error and kills the process; a
premature exit instead rejects with the Handshake error carrying `"hi"`. -/
theorem waitForPattern_timeout_and_prematureExit_witness :
    wfpRun listeningPattern ([ "hi" ].map WfpEvent.data ++ [WfpEvent.timerFire])
      = ⟨false, some (chunksConcat ["hi"]),
          [.reject (.timeout (some (chunksConcat ["hi"])))], true, false⟩
    ∧ wfpRun listeningPattern ([ "hi" ].map WfpEvent.data ++ [WfpEvent.exitEvt])
      = ⟨false, some (chunksConcat ["hi"]),
          [.reject (.handshake (some (chunksConcat ["hi"])))], false, false⟩ :=
  waitForPattern_timeout_and_prematureExit listeningPattern ["hi"] (by decide)

/-! ## Claim C3 -/

/-- Invariant of the `waitForPattern` executor: while the promise is
pending nothing has settled, and any settlement call after the first is a
reject issued by the unguarded `error` handler. -/
lemma wfpRun_settle_inv (pattern : String → Option α) (evs : List WfpEvent) :
    ∀ s : WfpState α,
      (s.promisePending = true → s.settlements = []) →
      (∀ x ∈ s.settlements.tail, ∃ msg, x = Settlement.reject (.spawn msg)) →
      ((evs.foldl (wfpStep pattern) s).promisePending = true →
        (evs.foldl (wfpStep pattern) s).settlements = [])
      ∧ (∀ x ∈ (evs.foldl (wfpStep pattern) s).settlements.tail,
          ∃ msg, x = Settlement.reject (.spawn msg)) := by
  induction evs with
  | nil => intro s h1 h2; exact ⟨h1, h2⟩
  | cons e t ih =>
    intro s h1 h2
    refine ih (wfpStep pattern s e) ?_ ?_
    · intro hp
      cases e with
      | data chunk =>
        by_cases hpend : s.promisePending
        · have hsets := h1 hpend
          cases hm : pattern (s.processOutput.getD "" ++ chunk) with
          | some m => simp [wfpStep, hpend, hm] at hp
          | none => simp [wfpStep, hpend, hm, hsets]
        · simp [wfpStep, hpend] at hp
      | errorEvt msg => simp [wfpStep] at hp
      | timerFire =>
        by_cases hc : s.timerCleared
        · simp [wfpStep, hc] at hp ⊢
          exact h1 (by simpa using hp)
        · by_cases hpend : s.promisePending
          · simp [wfpStep, hc, hpend] at hp
          · simp [wfpStep, hc, hpend] at hp
      | exitEvt =>
        by_cases hpend : s.promisePending
        · simp [wfpStep, hpend] at hp
        · simp [wfpStep, hpend] at hp
    · cases e with
      | data chunk =>
        by_cases hpend : s.promisePending
        · have hsets := h1 hpend
          cases hm : pattern (s.processOutput.getD "" ++ chunk) with
          | some m => simp [wfpStep, hpend, hm, hsets]
          | none => simp [wfpStep, hpend, hm, hsets]
        · simpa [wfpStep, hpend] using h2
      | errorEvt msg =>
        simp only [wfpStep]
        intro x hx
        rcases hs : s.settlements with _ | ⟨y, ys⟩
        · simp [hs] at hx
        · rw [hs] at hx
          simp only [List.cons_append, List.tail_cons] at hx
          rcases List.mem_append.1 hx with hx1 | hx2
          · exact h2 x (by simp [hs, hx1])
          · simp at hx2
            exact ⟨msg, hx2⟩
      | timerFire =>
        by_cases hc : s.timerCleared
        · simpa [wfpStep, hc] using h2
        · by_cases hpend : s.promisePending
          · have hsets := h1 hpend
            simp [wfpStep, hc, hpend, hsets]
          · simpa [wfpStep, hc, hpend] using h2
      | exitEvt =>
        by_cases hpend : s.promisePending
        · have hsets := h1 hpend
          simp [wfpStep, hpend, hsets]
        · simpa [wfpStep, hpend] using h2

/-- With no `error` events in the interleaving, the settlement count never
exceeds one (the guarded handlers are mutually exclusive no-ops after the
first settlement). -/
lemma wfpRun_settle_len (pattern : String → Option α) (evs : List WfpEvent)
    (hne : ∀ msg, WfpEvent.errorEvt msg ∉ evs) :
    ∀ s : WfpState α,
      (s.promisePending = true → s.settlements = []) →
      s.settlements.length ≤ 1 →
      (evs.foldl (wfpStep pattern) s).settlements.length ≤ 1 := by
  induction evs with
  | nil => intro s _ h2; exact h2
  | cons e t ih =>
    intro s h1 h2
    have hne' : ∀ msg, WfpEvent.errorEvt msg ∉ t := by
      intro msg hmem
      exact hne msg (List.mem_cons_of_mem _ hmem)
    have hguard : (wfpStep pattern s e).promisePending = true →
        (wfpStep pattern s e).settlements = [] := by
      intro hp
      cases e with
      | data chunk =>
        by_cases hpend : s.promisePending
        · have hsets := h1 hpend
          cases hm : pattern (s.processOutput.getD "" ++ chunk) with
          | some m => simp [wfpStep, hpend, hm] at hp
          | none => simp [wfpStep, hpend, hm, hsets]
        · simp [wfpStep, hpend] at hp
      | errorEvt msg => exact absurd (List.mem_cons_self _ _) (hne msg)
      | timerFire =>
        by_cases hc : s.timerCleared
        · simp [wfpStep, hc] at hp ⊢
          exact h1 (by simpa using hp)
        · by_cases hpend : s.promisePending
          · simp [wfpStep, hc, hpend] at hp
          · simp [wfpStep, hc, hpend] at hp
      | exitEvt =>
        by_cases hpend : s.promisePending
        · simp [wfpStep, hpend] at hp
        · simp [wfpStep, hpend] at hp
    have hlen : (wfpStep pattern s e).settlements.length ≤ 1 := by
      cases e with
      | data chunk =>
        by_cases hpend : s.promisePending
        · have hsets := h1 hpend
          cases hm : pattern (s.processOutput.getD "" ++ chunk) with
          | some m => simp [wfpStep, hpend, hm, hsets]
          | none => simp [wfpStep, hpend, hm, hsets, h2]
        · simpa [wfpStep, hpend] using h2
      | errorEvt msg => exact absurd (List.mem_cons_self _ _) (hne msg)
      | timerFire =>
        by_cases hc : s.timerCleared
        · simpa [wfpStep, hc] using h2
        · by_cases hpend : s.promisePending
          · have hsets := h1 hpend
            simp [wfpStep, hc, hpend, hsets]
          · simpa [wfpStep, hc, hpend] using h2
      | exitEvt =>
        by_cases hpend : s.promisePending
        · have hsets := h1 hpend
          simp [wfpStep, hpend, hsets]
        · simpa [wfpStep, hpend] using h2
    exact ih hne' (wfpStep pattern s e) hguard hlen

/-- Claim C3, counterexample.  An interleaving in which the pattern matches
a `data` chunk and the process `error` event fires afterwards: the
`error` handler of `waitForPattern` has no `promisePending` guard, so it
calls `reject` a second time after the promise was already resolved —
refuting "every later continuation (including the process 'error'
handler) is a no-op that neither resolves nor rejects the caller's
pending result a second time". -/
theorem waitForPattern_error_double_settlement_cex :
    (wfpRun listeningPattern
        [.data "Listening on port 4711\n", .errorEvt "spawn failed"]).settlements
      = [.resolve "4711", .reject (.spawn "spawn failed")] :=
  rfl

/-- Claim C3, amended.  Among the guarded continuations (`data` chunk match,
timer, process exit) at most one ever settles the promise — for every
interleaving without `error` events at most one settlement call is made,
whichever fires first; and in every interleaving any settlement call after
the first comes from the unguarded `error` handler, a redundant reject
that JavaScript promise semantics discard (the promise settles with the
first call). -/
theorem waitForPattern_no_double_settlement (pattern : String → Option α)
    (evs : List WfpEvent) :
    ((∀ msg, WfpEvent.errorEvt msg ∉ evs) →
      (wfpRun pattern evs).settlements.length ≤ 1)
    ∧ (∀ x ∈ (wfpRun pattern evs).settlements.tail,
        ∃ msg, x = Settlement.reject (.spawn msg)) := by
  constructor
  · intro hne
    exact wfpRun_settle_len pattern evs hne (wfpInit α) (fun _ => rfl) (by simp [wfpInit])
  · exact (wfpRun_settle_inv pattern evs (wfpInit α) (fun _ => rfl) (by simp [wfpInit])).2

/-- Claim C3, witness.  A concrete error-free interleaving — a non-matching
chunk, the timer, then a (late) exit: exactly one settlement call is made
and there is none after the first. -/
theorem waitForPattern_no_double_settlement_witness :
    (wfpRun listeningPattern [.data "x", .timerFire, .exitEvt]).settlements.length ≤ 1
    ∧ (∀ x ∈ (wfpRun listeningPattern [.data "x", .timerFire, .exitEvt]).settlements.tail,
        ∃ msg, x = Settlement.reject (.spawn msg)) :=
  ⟨(waitForPattern_no_double_settlement listeningPattern
      [.data "x", .timerFire, .exitEvt]).1 (by intro msg; simp),
   (waitForPattern_no_double_settlement listeningPattern
      [.data "x", .timerFire, .exitEvt]).2⟩

/-! ## Claim C4 -/

/-- Invariant of the `launch` coroutine: recorded stamps lie below the
clock; past the first await the `initialize` response has arrived and the
`launch` request has been sent; and once `configurationDone` has been
sent, the body is finished and the `initialized` event, the `initialize`
response and the `launch` request all carry strictly earlier stamps. -/
def launchInvariant (s : LaunchState) : Prop :=
  (∀ t, s.recvInitRespAt = some t → t < s.clock)
  ∧ (∀ t, s.recvInitEventAt = some t → t < s.clock)
  ∧ (∀ t, s.sentLaunchAt = some t → t < s.clock)
  ∧ (s.phase ≠ .awaitInitResp → s.recvInitRespAt.isSome ∧ s.sentLaunchAt.isSome)
  ∧ (∀ t, s.sentConfigDoneAt = some t →
      s.phase = .bodyDone
      ∧ (∃ te, s.recvInitEventAt = some te ∧ te < t)
      ∧ (∃ tr, s.recvInitRespAt = some tr ∧ tr < t)
      ∧ (∃ tl, s.sentLaunchAt = some tl ∧ tl < t))

lemma launchAdvance1_inv (s : LaunchState) (h : launchInvariant s) :
    launchInvariant (launchAdvance1 s) := by
  obtain ⟨h1, h2, h3, h4, h5⟩ := h
  by_cases hc : s.phase = LaunchPhase.awaitInitResp ∧ s.recvInitRespAt.isSome
  · refine ⟨?_, ?_, ?_, ?_, ?_⟩ <;> simp only [launchAdvance1, if_pos hc]
    · intro t ht; exact Nat.lt_succ_of_lt (h1 t ht)
    · intro t ht; exact Nat.lt_succ_of_lt (h2 t ht)
    · intro t ht
      simp at ht
      omega
    · intro _
      exact ⟨hc.2, by simp⟩
    · intro t ht
      exact absurd (h5 t ht).1 (by simp [hc.1])
  · simpa [launchAdvance1, if_neg hc] using ⟨h1, h2, h3, h4, h5⟩

lemma launchAdvance2_inv (s : LaunchState) (h : launchInvariant s) :
    launchInvariant (launchAdvance2 s) := by
  obtain ⟨h1, h2, h3, h4, h5⟩ := h
  by_cases hc : s.phase = LaunchPhase.awaitInitEvent ∧ s.recvInitEventAt.isSome
  · have h4' := h4 (by simp [hc.1])
    refine ⟨?_, ?_, ?_, ?_, ?_⟩ <;> simp only [launchAdvance2, if_pos hc]
    · intro t ht; exact Nat.lt_succ_of_lt (h1 t ht)
    · intro t ht; exact Nat.lt_succ_of_lt (h2 t ht)
    · intro t ht; exact Nat.lt_succ_of_lt (h3 t ht)
    · intro _
      exact h4'
    · intro t ht
      simp at ht
      subst ht
      refine ⟨by simp, ?_, ?_, ?_⟩
      · obtain ⟨te, hte⟩ := Option.isSome_iff_exists.1 hc.2
        exact ⟨te, hte, h2 te hte⟩
      · obtain ⟨tr, htr⟩ := Option.isSome_iff_exists.1 h4'.1
        exact ⟨tr, htr, h1 tr htr⟩
      · obtain ⟨tl, htl⟩ := Option.isSome_iff_exists.1 h4'.2
        exact ⟨tl, htl, h3 tl htl⟩
  · simpa [launchAdvance2, if_neg hc] using ⟨h1, h2, h3, h4, h5⟩

lemma launchStep_inv (s : LaunchState) (m : LaunchIn) (h : launchInvariant s) :
    launchInvariant (launchStep s m) := by
  have hrec : ∀ s' : LaunchState, launchInvariant s' →
      launchInvariant (launchAdvance s') := fun s' h' =>
    launchAdvance2_inv _ (launchAdvance1_inv s' h')
  obtain ⟨h1, h2, h3, h4, h5⟩ := h
  cases m with
  | initResp =>
    refine hrec { s with recvInitRespAt := stamp s.recvInitRespAt s.clock,
                         clock := s.clock + 1 } ⟨?_, ?_, ?_, ?_, ?_⟩ <;> dsimp only
    · intro t ht
      cases hr : s.recvInitRespAt with
      | some u => rw [hr] at ht; simp [stamp] at ht; subst ht; exact Nat.lt_succ_of_lt (h1 u hr)
      | none => rw [hr] at ht; simp [stamp] at ht; omega
    · intro t ht; exact Nat.lt_succ_of_lt (h2 t ht)
    · intro t ht; exact Nat.lt_succ_of_lt (h3 t ht)
    · intro hp
      refine ⟨?_, (h4 hp).2⟩
      cases hr : s.recvInitRespAt <;> simp [stamp, hr]
    · intro t ht
      obtain ⟨hph, hte, htr, htl⟩ := h5 t ht
      refine ⟨hph, hte, ?_, htl⟩
      obtain ⟨tr, htr', hlt⟩ := htr
      exact ⟨tr, by simp [stamp, htr'], hlt⟩
  | initEvent =>
    refine hrec { s with recvInitEventAt := stamp s.recvInitEventAt s.clock,
                         clock := s.clock + 1 } ⟨?_, ?_, ?_, ?_, ?_⟩ <;> dsimp only
    · intro t ht; exact Nat.lt_succ_of_lt (h1 t ht)
    · intro t ht
      cases hr : s.recvInitEventAt with
      | some u => rw [hr] at ht; simp [stamp] at ht; subst ht; exact Nat.lt_succ_of_lt (h2 u hr)
      | none => rw [hr] at ht; simp [stamp] at ht; omega
    · intro t ht; exact Nat.lt_succ_of_lt (h3 t ht)
    · intro hp; exact h4 hp
    · intro t ht
      obtain ⟨hph, hte, htr, htl⟩ := h5 t ht
      refine ⟨hph, ?_, htr, htl⟩
      obtain ⟨te, hte', hlt⟩ := hte
      exact ⟨te, by simp [stamp, hte'], hlt⟩
  | launchResp =>
    refine hrec { s with recvLaunchRespAt := stamp s.recvLaunchRespAt s.clock,
                         clock := s.clock + 1 } ⟨?_, ?_, ?_, ?_, ?_⟩ <;> dsimp only
    · intro t ht; exact Nat.lt_succ_of_lt (h1 t ht)
    · intro t ht; exact Nat.lt_succ_of_lt (h2 t ht)
    · intro t ht; exact Nat.lt_succ_of_lt (h3 t ht)
    · intro hp; exact h4 hp
    · intro t ht; exact h5 t ht

lemma launchRun_inv (ins : List LaunchIn) : launchInvariant (launchRun ins) := by
  have hinit : launchInvariant launchInit := by
    refine ⟨?_, ?_, ?_, ?_, ?_⟩ <;> simp [launchInit, launchInvariant]
  rw [launchRun]
  induction ins using List.reverseRecOn with
  | nil => exact hinit
  | append_singleton t m ih =>
    rw [List.foldl_append]
    exact launchStep_inv _ m ih

/-- Claim C4, counterexample.  The ordinary interleaving — initialize
response, then the initialized event, then the launch response:
`configurationDone` is sent at stamp 4, strictly before the launch
response arrives at stamp 5, because `launch` awaits only the
`initialized` event before sending `configurationDone`; the launch
Response is returned to the caller still unresolved.  This refutes
"configurationDone is never sent before both the initialized event has
arrived and the launch/attach Response has resolved". -/
theorem launch_configDone_before_launchResp_cex :
    (launchRun [.initResp, .initEvent, .launchResp]).sentConfigDoneAt = some 4
    ∧ (launchRun [.initResp, .initEvent, .launchResp]).recvLaunchRespAt = some 5 :=
  ⟨rfl, rfl⟩

/-- Claim C4, amended.  In every interleaving of inbound messages,
`configurationDone` is sent only after the `initialize` response has
arrived, the `launch`/`attach` request has been sent, and the
`initialized` event has arrived (all three carry strictly earlier
stamps); the `launch`/`attach` Response is not awaited before
`configurationDone` — it is awaited only by `launch`'s caller and may
resolve after `configurationDone` is sent. -/
theorem launch_configDone_after_initialized (ins : List LaunchIn) (t : Nat)
    (h : (launchRun ins).sentConfigDoneAt = some t) :
    (∃ te, (launchRun ins).recvInitEventAt = some te ∧ te < t)
    ∧ (∃ tr, (launchRun ins).recvInitRespAt = some tr ∧ tr < t)
    ∧ (∃ tl, (launchRun ins).sentLaunchAt = some tl ∧ tl < t) := by
  obtain ⟨_, _, _, _, h5⟩ := launchRun_inv ins
  obtain ⟨_, hte, htr, htl⟩ := h5 t h
  exact ⟨hte, htr, htl⟩

/-- Claim C4, witness.  The interleaving initialize-response then
initialized-event: `configurationDone` goes out at stamp 4, after the
response (stamp 1), the launch request (stamp 2) and the event
(stamp 3). -/
theorem launch_configDone_after_initialized_witness :
    (∃ te, (launchRun [.initResp, .initEvent]).recvInitEventAt = some te ∧ te < 4)
    ∧ (∃ tr, (launchRun [.initResp, .initEvent]).recvInitRespAt = some tr ∧ tr < 4)
    ∧ (∃ tl, (launchRun [.initResp, .initEvent]).sentLaunchAt = some tl ∧ tl < 4) :=
  launch_configDone_after_initialized [.initResp, .initEvent] 4 rfl

/-! ## Claim C9 -/

/-- A token-free string is returned unchanged by `expandVariables`, with
no replacement recorded, whatever the expander. -/
lemma expandVariables_noRefs (exp : Expander) (s : List Seg)
    (h : noRefsSegs s = true) : expandVariables exp s = .ok (s, false) := by
  induction s with
  | nil => rfl
  | cons seg t ih =>
    cases seg with
    | text x =>
      have ht : noRefsSegs t = true := by simpa [noRefsSegs] using h
      simp [expandVariables, ih ht]
    | ref ty key => simp [noRefsSegs] at h

/- A fully resolved value is returned unchanged by
`expandVariablesInObject`, with no replacement recorded. -/
mutual
theorem expandVal_noRefs (exp : Expander) (v : JVal) (h : noRefsVal v = true) :
    expandVal exp v = .ok (v, false) := by
  cases v with
  | str s =>
    have hs : noRefsSegs s = true := by simpa [noRefsVal] using h
    simp [expandVal, expandVariables_noRefs exp s hs]
  | null => rfl
  | bool b => rfl
  | num n => rfl
  | arr xs =>
    have hx : noRefsList xs = true := by simpa [noRefsVal] using h
    simp [expandVal, expandValList_noRefs exp xs hx]
  | obj fs =>
    have hf : noRefsFields fs = true := by simpa [noRefsVal] using h
    simp [expandVal, expandValFields_noRefs exp fs hf]

theorem expandValList_noRefs (exp : Expander) (xs : JValList)
    (h : noRefsList xs = true) : expandValList exp xs = .ok (xs, false) := by
  cases xs with
  | nil => rfl
  | cons v t =>
    have hv : noRefsVal v = true := by
      have := h; simp [noRefsList] at this; exact this.1
    have ht : noRefsList t = true := by
      have := h; simp [noRefsList] at this; exact this.2
    simp [expandValList, expandVal_noRefs exp v hv, expandValList_noRefs exp t ht]

theorem expandValFields_noRefs (exp : Expander) (fs : JFields)
    (h : noRefsFields fs = true) : expandValFields exp fs = .ok (fs, false) := by
  cases fs with
  | nil => rfl
  | cons k v t =>
    have hv : noRefsVal v = true := by
      have := h; simp [noRefsFields] at this; exact this.1
    have ht : noRefsFields t = true := by
      have := h; simp [noRefsFields] at this; exact this.2
    simp [expandValFields, expandVal_noRefs exp v hv, expandValFields_noRefs exp t ht]
end

/-- A successful dictionary lookup in a fully resolved dictionary yields a
fully resolved value. -/
lemma dictLookup_noRefs (m : List (String × JVal)) (hm : noRefsDict m = true)
    (k : String) (v : JVal) (h : dictLookup m k = some v) : noRefsVal v = true := by
  induction m with
  | nil => simp [dictLookup] at h
  | cons p t ih =>
    have hp : noRefsVal p.2 = true ∧ noRefsDict t = true := by
      simpa [noRefsDict, List.all_cons] using hm
    by_cases hk : p.1 = k
    · simp [dictLookup, hk] at h
      exact h ▸ hp.1
    · simp [dictLookup, hk] at h
      exact ih hp.2 h

/-- Writing back the value a key already holds leaves the dictionary
unchanged. -/
lemma dictUpdate_self (m : List (String × JVal)) (k : String) (v : JVal)
    (h : dictLookup m k = some v) : dictUpdate m k v = m := by
  induction m with
  | nil => rfl
  | cons p t ih =>
    by_cases hk : p.1 = k
    · simp [dictLookup, hk] at h
      cases p with
      | mk k' v' => simp_all [dictUpdate]
    · simp [dictLookup, hk] at h
      cases p with
      | mk k' v' =>
        simp only [dictUpdate]
        rw [if_neg (by simpa using hk)]
        rw [ih h]

/-- One pass of the fixed-point loop over a fully resolved dictionary
changes nothing and reports convergence. -/
lemma expandPass_noRefs (keys : List String) (m : List (String × JVal))
    (hm : noRefsDict m = true) : expandPass m keys = .ok (m, true) := by
  induction keys with
  | nil => rfl
  | cons k ks ih =>
    cases hl : dictLookup m k with
    | none => simp [expandPass, hl, ih]
    | some v =>
      have hv : noRefsVal v = true := dictLookup_noRefs m hm k v hl
      simp [expandPass, hl, expandVal_noRefs _ v hv, dictUpdate_self m k v hl, ih]

/-- Claim C9. Expansion is idempotent on resolved input: if no value of the
dbgconfig dictionary and no value of the launch configuration contains a
reference token, then `expandDbgConfig` returns the launch configuration
unchanged and its fixed-point loop converges after exactly one pass (with
zero replacements), for every fuel bound that admits that one pass. -/
theorem expandDbgConfig_idempotent (fuel : Nat) (dc : JVal)
    (m : List (String × JVal)) (hdc : noRefsVal dc = true)
    (hm : noRefsDict m = true) :
    expandDbgConfig (fuel + 1) dc m = .ok (dc, 1) := by
  simp [expandDbgConfig, expandLoop, expandPass_noRefs _ m hm,
    expandVal_noRefs (finalExpander m) dc hdc]

/-- Claim C9, witness.  A concrete resolved configuration: dbgconfig
`(opt: 5, flag: true)`, launch configuration
`(program: "./debuggee", args: ["x"])`; one pass, unchanged. -/
theorem expandDbgConfig_idempotent_witness :
    expandDbgConfig 1
      (.obj (.cons "program" (.str [.text "./debuggee"])
        (.cons "args" (.arr (.cons (.str [.text "x"]) .nil)) .nil)))
      [("opt", .num 5), ("flag", .bool true)]
    = .ok (.obj (.cons "program" (.str [.text "./debuggee"])
        (.cons "args" (.arr (.cons (.str [.text "x"]) .nil)) .nil)), 1) :=
  expandDbgConfig_idempotent 0
    (.obj (.cons "program" (.str [.text "./debuggee"])
      (.cons "args" (.arr (.cons (.str [.text "x"]) .nil)) .nil)))
    [("opt", .num 5), ("flag", .bool true)] (by decide) (by decide)

/-! ## Claim C2 -/

/-- Claim C2, counterexample.  A document with a mutual reference cycle that
expansion resolves silently: `a` holds the token `dbgconfig:b` and `b` is
an object whose property `x` holds the token `dbgconfig:a` — a cycle
a → b → a.  Expanding `a` stringifies the object `b` to the token-free
text `[object Object]`, destroying the cycle, and the fixed-point loop
converges after two passes with no error — refuting "for every document
containing a reference cycle, the fixed-point iteration of
`expandDbgConfig` terminates by throwing the circular-dependency
error". -/
theorem expandDbgConfig_objCycle_cex :
    expandDbgConfig 5 (.obj .nil)
      [("a", .str [.ref (some "dbgconfig") "b"]),
       ("b", .obj (.cons "x" (.str [.ref (some "dbgconfig") "a"]) .nil))]
    = .ok (.obj .nil, 2) :=
  rfl

/-- Claim C2, amended.  On the document of the spec's concrete example —
`a` and `b` plain strings holding the tokens `dbgconfig:b` and
`dbgconfig:a` respectively — expansion fails with the circular-dependency
error naming the offending symbol `a` (after the first pass propagates the
self-reference), for every launch configuration and every fuel bound ≥ 2.
The universal claim survives only for cycles that stay within string
values; a cycle through an object-valued entry is flattened away by
`toString` (see the counterexample). -/
theorem expandDbgConfig_mutual_cycle (fuel : Nat) (dc : JVal) :
    expandDbgConfig (fuel + 2) dc
      [("a", .str [.ref (some "dbgconfig") "b"]),
       ("b", .str [.ref (some "dbgconfig") "a"])]
    = .error (.circular "a") := by
  simp [expandDbgConfig, expandLoop, expandPass, expandVal, expandVariables,
    dbgExpander, dictLookup, dictUpdate, toSegs]

/-- Claim C2, witness.  The amended theorem at fuel 3 and an empty launch
configuration. -/
theorem expandDbgConfig_mutual_cycle_witness :
    expandDbgConfig 5 (.obj .nil)
      [("a", .str [.ref (some "dbgconfig") "b"]),
       ("b", .str [.ref (some "dbgconfig") "a"])]
    = .error (.circular "a") :=
  expandDbgConfig_mutual_cycle 3 (.obj .nil)

/-! ## Claim C10 -/

/-- Claim C10. For every expected shape (and every backend and key-path
prefix), `compareVariables` with container reference 0 fails immediately
with the `'Expected non-zero.'` assertion, and no `variables` request is
issued (the request log is empty). -/
theorem compareVariables_rejects_zero_reference
    (backend : Nat → List VarNode) (expected : EFields) (pre : String) :
    compareVariables backend 0 expected pre = ([], .error .assertNonZero) :=
  rfl

/-! ## Claim C1 -/

/-- Claim C1, counterexample.  `compareVariables` does not accumulate
mismatches: comparing the expected shape `(a: "x", b: "y")` against a
backend whose container 1 holds `a = "A"`, `b = "B"` (so both keys
diverge) raises an error naming only the first divergent path `a`; the
reported error does not list `b`, and the walk stops at `a` — refuting
"checks every key ... and raises a single MismatchError at the end that
lists every divergent dotted key path ... never stops at the first
mismatch encountered". -/
theorem compareVariables_failFast_cex :
    compareVariables
      (fun r => if r = 1 then [⟨"a", "A", 0⟩, ⟨"b", "B", 0⟩] else [])
      1 (.cons "a" (.str "x") (.cons "b" (.str "y") .nil)) ""
    = ([1], .error (.strMismatch "a" "x" "A")) :=
  rfl

/-- Claim C1, amended.  `compareVariables` checks the expected keys in order
and raises the assertion of the first divergent key only: comparing
expected `(a: 1, b: "x")` against backend nodes `a = "1"`, `b = "y"`
raises an error naming path `b` only (key `a` passes the numeric
comparison of `parseFloat "1"` against `1`); and with two divergent keys
`(a: "x", b: "y")` against `a = "A"`, `b = "B"` the raised error names
only the first divergent path `a`. -/
theorem compareVariables_first_mismatch :
    compareVariables
      (fun r => if r = 1 then [⟨"a", "1", 0⟩, ⟨"b", "y", 0⟩] else [])
      1 (.cons "a" (.num ⟨1, 0⟩) (.cons "b" (.str "x") .nil)) ""
    = ([1], .error (.strMismatch "b" "x" "y"))
    ∧ compareVariables
      (fun r => if r = 1 then [⟨"a", "A", 0⟩, ⟨"b", "B", 0⟩] else [])
      1 (.cons "a" (.str "x") (.cons "b" (.str "y") .nil)) ""
    = ([1], .error (.strMismatch "a" "x" "A")) :=
  ⟨rfl, rfl⟩

/-! ## Claim C7 -/

/-- Once the `stopped` handler has removed itself, further events leave
the waiter untouched. -/
lemma wfsRun_absorb (s : WfsState) (evs : List StoppedEvent)
    (h : s.listenerActive = false) : evs.foldl wfsStep s = s := by
  induction evs with
  | nil => rfl
  | cons e t ih => simpa [wfsStep, h] using ih

/-- The waiter resolves with exactly the first event whose reason is not
`"initial"`. -/
lemma wfsRun_resolved_eq_find (evs : List StoppedEvent) :
    (wfsRun evs).resolved = evs.find? (fun e => e.reason != "initial") := by
  induction evs with
  | nil => rfl
  | cons e t ih =>
    by_cases h : e.reason = "initial"
    · simpa [wfsRun, wfsStep, wfsInit, List.find?, h] using ih
    · have hb : (e.reason != "initial") = true := by simp [h]
      simp [wfsRun, wfsStep, wfsInit, List.find?, h, hb, List.foldl,
        wfsRun_absorb ⟨false, some e⟩ t rfl]

/-- Claim C7. `waitForStopEvent` never resolves for a stopped event whose
body reason is `"initial"`: over every stream of stopped events the waiter
resolves with exactly the first event whose reason is not `"initial"` (and
with nothing if there is none), so any event it resolves with has a
non-`"initial"` reason. -/
theorem waitForStopEvent_skips_initial (evs : List StoppedEvent) :
    (wfsRun evs).resolved = evs.find? (fun e => e.reason != "initial")
    ∧ ∀ e, (wfsRun evs).resolved = some e → e.reason ≠ "initial" := by
  refine ⟨wfsRun_resolved_eq_find evs, fun e he => ?_⟩
  rw [wfsRun_resolved_eq_find evs] at he
  have := List.find?_some he
  simpa using this

/-- Claim C7, witness.  A concrete stream: an `"initial"` stop followed by a
`"breakpoint"` stop; the waiter resolves with the breakpoint stop. -/
theorem waitForStopEvent_skips_initial_witness :
    (wfsRun [⟨"initial", none⟩, ⟨"breakpoint", some 1⟩]).resolved
      = List.find? (fun e => e.reason != "initial")
          [⟨"initial", none⟩, ⟨"breakpoint", some 1⟩]
    ∧ ∀ e, (wfsRun [⟨"initial", none⟩, ⟨"breakpoint", some 1⟩]).resolved = some e →
        e.reason ≠ "initial" :=
  waitForStopEvent_skips_initial [⟨"initial", none⟩, ⟨"breakpoint", some 1⟩]

/-! ## Claim C8 -/

/-- Liveness is irreversible: from any non-alive state, no sequence of
events makes the process alive again. -/
lemma apRun_dead_absorb (evs : List ApEvent) :
    ∀ s : ApState, s.isAlive = false → (evs.foldl apStep s).isAlive = false := by
  induction evs with
  | nil => intro s h; exact h
  | cons e t ih =>
    intro s h
    cases e with
    | exitEvt => exact ih _ rfl
    | terminateCall => exact ih _ (by simp [apStep, h])

/-- Only the `exit` listener clears liveness: a `terminate()` call never
changes `isAlive`, so from any alive state a run without an `exit` event
stays alive. -/
lemma apRun_alive_without_exit (evs : List ApEvent) :
    ∀ s : ApState, ApEvent.exitEvt ∉ evs → s.isAlive = true →
      (evs.foldl apStep s).isAlive = true := by
  induction evs with
  | nil => intro s _ h; exact h
  | cons e t ih =>
    intro s hmem h
    cases e with
    | exitEvt => exact absurd (List.mem_cons_self _ _) hmem
    | terminateCall =>
      have hmem' : ApEvent.exitEvt ∉ t := fun hm => hmem (List.mem_cons_of_mem _ hm)
      refine ih _ hmem' ?_
      simp [apStep, h]

/-- Claim C8. `AdapterProcess` liveness and termination: `isAlive` is true
at construction; while the underlying process has not exited it stays true
(no other event — in particular no `terminate()` call — clears it); after
the process's `exit` event it is false and stays false forever, so the
transition happens exactly once, on exit, irreversibly; `terminate()` on a
dead process changes nothing (idempotent on dead processes); and a
`terminate()` call sends a kill signal exactly when `isAlive` held at the
time of the call. -/
theorem adapterProcess_lifecycle :
    apInit.isAlive = true
    ∧ (∀ evs, ApEvent.exitEvt ∉ evs → (apRun evs).isAlive = true)
    ∧ (∀ pre post, (apRun (pre ++ .exitEvt :: post)).isAlive = false)
    ∧ (∀ k, apStep ⟨false, k⟩ .terminateCall = ⟨false, k⟩)
    ∧ (∀ s : ApState,
        (apStep s .terminateCall).kills = if s.isAlive then s.kills + 1 else s.kills) := by
  refine ⟨rfl, ?_, ?_, ?_, ?_⟩
  · intro evs hmem
    exact apRun_alive_without_exit evs apInit hmem rfl
  · intro pre post
    have : apRun (pre ++ .exitEvt :: post)
        = post.foldl apStep (apStep (pre.foldl apStep apInit) .exitEvt) := by
      simp [apRun, List.foldl_append]
    rw [this]
    exact apRun_dead_absorb post _ rfl
  · intro k; rfl
  · intro s
    by_cases h : s.isAlive <;> simp [apStep, h]

/-- Claim C8, witness.  A process that is terminated twice but never
exits is still alive; once the exit event occurs (here between the two
`terminate()` calls) it is dead. -/
theorem adapterProcess_lifecycle_witness :
    (apRun [ApEvent.terminateCall, ApEvent.terminateCall]).isAlive = true
    ∧ (apRun ([ApEvent.terminateCall] ++ ApEvent.exitEvt :: [ApEvent.terminateCall])).isAlive
        = false :=
  ⟨adapterProcess_lifecycle.2.1 [ApEvent.terminateCall, ApEvent.terminateCall] (by decide),
   adapterProcess_lifecycle.2.2.1 [ApEvent.terminateCall] [ApEvent.terminateCall]⟩

end VscodeLldb
